import Mathlib

/-!
# A verification model of `raus` (Ranged Unique id Allocator via redis Store)

This file is a shallow embedding, in Lean 4, of the Go package `raus`
(`raus.go`).  Go strings are modelled as `List Char`; Go `int` as `Int`;
fallible operations as `Except`/`Option`; the external redis store as an
explicit state (for the lock-key semantics) or as oracle functions (for the
outcomes of `SetNX` calls and for the payloads delivered by a pub/sub
subscription).  Wall-clock time is modelled in milliseconds as `Nat`.

Definitions mirror the Go source; theorems at the end of the file settle the
specification claims against them.
-/

set_option linter.dupNamespace false

namespace Raus

/-- Go strings are modelled as lists of characters. -/
abbrev Str := List Char

/-- Decidable equality for `Except`, so that concrete runs of the fallible
operations can be checked by `decide`. -/
instance {ε α : Type} [DecidableEq ε] [DecidableEq α] : DecidableEq (Except ε α) :=
  fun x y =>
    match x, y with
    | .ok a, .ok b => decidable_of_iff (a = b) (by simp)
    | .error a, .error b => decidable_of_iff (a = b) (by simp)
    | .ok _, .error _ => isFalse (by simp)
    | .error _, .ok _ => isFalse (by simp)

/-! ## Constants (`raus.go` lines 31-36) -/

/-- Constant `ErrorID = -1`: sentinel id returned by `Get` on failure. -/
def ErrorID : Int := -1

/-- Constant `maxCandidate = 10`: the claim loop collects at most this many candidates. -/
def maxCandidate : Nat := 10

/-- Constant `defaultNamespace = "raus"`. -/
def defaultNamespace : Str := "raus".toList

/-- Constant `pubSubChannelSuffix = ":broadcast"`. -/
def pubSubChannelSuffix : Str := ":broadcast".toList

/-! ## The `Raus` struct (`raus.go` lines 19-29)

The Go struct also carries `rand` (a PRNG) and `channel` (an unbuffered error
channel); randomness is modelled as an oracle of draws passed to the claim
loop, and the channel handshake is modelled by the `Option String` outcome
threaded through `subscribeModel`/`GetModel` below. -/

structure Raus where
  uuid : Str
  id : Int
  min : Int
  max : Int
  redisAddr : Str
  nameSpace : Str
  pubSubChannel : Str
deriving DecidableEq, Repr

/-- Constructor `New` (`raus.go` lines 39-61).  The caller-invisible PRNG seeding is
dropped; the freshly minted UUID-v4 is taken as the parameter `u`.  The Go
zero value of the `id` field is `0`. -/
def New (addr : Str) (mn mx : Int) (u : Str) : Except String Raus :=
  if mn < 0 then
    .error "min should be greater than or equal to 0"
  else if mn ≥ mx then
    .error "max should be greater than min"
  else
    .ok { uuid := u
          id := 0
          min := mn
          max := mx
          redisAddr := addr
          nameSpace := defaultNamespace
          pubSubChannel := defaultNamespace ++ pubSubChannelSuffix }

/-- Method `size` (`raus.go` lines 69-71). -/
def Raus.size (r : Raus) : Int := r.max - r.min

/-! ## Decimal formatting (`fmt.Sprintf("%d", ...)` / `strconv.Itoa`)

`newPayload`, `lockKey` and `candidateLockKey` format an integer in decimal
via `fmt`.  We model the decimal formatter explicitly: digits via the usual
digit table, most significant first, a leading `'-'` for negatives. -/

/-- The decimal digit characters, as in Go's `strconv` digit table. -/
def digitTable : Str := ['0', '1', '2', '3', '4', '5', '6', '7', '8', '9']

/-- The character for digit `d` (meaningful for `d < 10`). -/
def digitChar (d : Nat) : Char := digitTable.getD d '0'

/-- Decimal digits, most significant first, by structural recursion on a
fuel bound (`n / 10 < n` whenever `n ≥ 10`, so `fuel = n` always suffices;
the `fuel = 0` case is reached only with `n < 10`). -/
def natDigitsF : Nat → Nat → Str
  | 0, n => [digitChar n]
  | fuel + 1, n =>
    if n < 10 then [digitChar n]
    else natDigitsF fuel (n / 10) ++ [digitChar (n % 10)]

/-- Decimal digits of a natural number, most significant first. -/
def natDigits (n : Nat) : Str := natDigitsF n n

/-- Decimal representation of an integer, as printed by Go's `%d` verb. -/
def intDecimal (i : Int) : Str :=
  if i < 0 then '-' :: natDigits i.natAbs else natDigits i.toNat

/-! ## Payloads (`raus.go` lines 210-224) -/

/-- Whether `c` is an ASCII decimal digit (as accepted by `strconv.Atoi`). -/
def isDigitChar (c : Char) : Bool := '0' ≤ c && c ≤ '9'

/-- The numeric value read off a digit string, as accumulated by `Atoi`. -/
def digitsVal (l : Str) : Nat :=
  l.foldl (fun a c => 10 * a + (c.toNat - 48)) 0

/-- Function `strconv.Atoi`: an optional sign followed by a nonempty run of decimal
digits, and nothing else.  (Go additionally rejects values overflowing a
64-bit `int`; the model uses unbounded `Int`, which agrees with Go on every
payload the package itself produces.) -/
def Atoi (s : Str) : Except String Int :=
  match s with
  | [] => .error "invalid syntax"
  | c :: rest =>
    if c = '+' then
      if rest ≠ [] ∧ rest.all isDigitChar then .ok (digitsVal rest)
      else .error "invalid syntax"
    else if c = '-' then
      if rest ≠ [] ∧ rest.all isDigitChar then .ok (-(digitsVal rest : Int))
      else .error "invalid syntax"
    else
      if (c :: rest).all isDigitChar then .ok (digitsVal (c :: rest))
      else .error "invalid syntax"

/-- Function `strings.Split(s, ":")`: split on every colon; a string with `k` colons
yields `k+1` (possibly empty) parts. -/
def splitOnColon : Str → List Str
  | [] => [[]]
  | c :: rest =>
    if c = ':' then [] :: splitOnColon rest
    else
      match splitOnColon rest with
      | [] => [[c]]
      | h :: t => (c :: h) :: t

/-- Function `parsePayload` (`raus.go` lines 210-220): split on `:`; exactly two parts
whose second parses as a decimal integer, else the payload is malformed. -/
def parsePayload (payload : Str) : Except String (Str × Int) :=
  match splitOnColon payload with
  | [a, b] =>
    match Atoi b with
    | .ok id => .ok (a, id)
    | .error _ => .error ("unexpected data " ++ String.mk payload)
  | _ => .error ("unexpected data " ++ String.mk payload)

/-- Function `newPayload` (`raus.go` lines 222-224): `fmt.Sprintf("%s:%d", uuid, id)`. -/
def newPayload (uuid : Str) (id : Int) : Str :=
  uuid ++ [':'] ++ intDecimal id

/-- Function `candidateLockKey` (`raus.go` lines 267-269):
`fmt.Sprintf("%s:id:%d", r.namespace, id)`. -/
def candidateLockKey (ns : Str) (id : Int) : Str :=
  ns ++ ":id:".toList ++ intDecimal id

/-- Method `lockKey` (`raus.go` lines 263-265): the lock key of the owned id. -/
def Raus.lockKey (r : Raus) : Str := candidateLockKey r.nameSpace r.id

/-! ## Discovery (`raus.go` lines 88-142, label `LISTING`)

The subscription delivers a sequence of `*redis.Message` payloads; the
messages actually received inside the 3-second window (with no context
cancellation and no receive error) are modelled as a `List Str`.  The
`usedIds` map becomes a boolean predicate on ids. -/

/-- Assignment `usedIds[x] = true`, i.e. insertion into the `usedIds` map. -/
def markUsed (used : Int → Bool) (x : Int) : Int → Bool :=
  fun i => if i = x then true else used i

/-- Outcome of processing the discovery messages. -/
inductive DiscRes where
  /-- A well-formed payload carried our own uuid: `raise "duplicate uuid"`. -/
  | dup : DiscRes
  /-- The window closed; proceed to the claim loop with the collected set. -/
  | done (used : Int → Bool) : DiscRes

/-- Processing of the payloads received during discovery: malformed payloads
are logged and skipped, a payload carrying our own uuid aborts with
`"duplicate uuid"`, any other well-formed payload records its id as used. -/
def discoverMsgs (uuid : Str) : List Str → (Int → Bool) → DiscRes
  | [], used => .done used
  | m :: rest, used =>
    match parsePayload m with
    | .error _ => discoverMsgs uuid rest used
    | .ok (xuuid, xid) =>
      if xuuid = uuid then .dup
      else discoverMsgs uuid rest (markUsed used xid)

/-! ## Discovery timing (`raus.go` lines 103-115)

`timeout := 3 * time.Second`; the loop runs `for time.Since(start) < timeout`
and each receive is `pubsub.ReceiveTimeout(timeout)` — the same fixed
constant.  Time is modelled in milliseconds.  `durs` lists, for each receive
the subscription would serve, the wall-clock delay until its message would
arrive; a delay `≥` the deadline means the receive times out (error), which
breaks the loop. -/

/-- Constant `timeout = 3 * time.Second`, in milliseconds. -/
def timeoutMs : Nat := 3000

/-- The `(elapsed-at-call, deadline-passed)` pair of every `ReceiveTimeout`
call the `LISTING` loop issues, given the arrival delays `durs` and the
elapsed time `e` at loop entry. -/
def discReceiveCalls (t : Nat) : List Nat → Nat → List (Nat × Nat)
  | [], _ => []
  | d :: rest, e =>
    if e < t then
      (e, t) :: (if d ≥ t then [] else discReceiveCalls t rest (e + d))
    else []

/-- Elapsed wall-clock time when the `LISTING` loop exits, given arrival
delays `durs` and elapsed time `e` at loop entry. -/
def discEnd (t : Nat) : List Nat → Nat → Nat
  | [], e => e
  | d :: rest, e =>
    if e < t then
      if d ≥ t then e + t else discEnd t rest (e + d)
    else e

/-! ## The claim loop (`raus.go` lines 144-184, label `LOCKING`) -/

/-- The ascending id range `min..max` of the Go scan
`for i := r.min; i <= r.max; i++`. -/
def intRange (mn mx : Int) : List Int :=
  (List.range (mx - mn + 1).toNat).map (fun (k : Nat) => mn + (k : Int))

/-- The inner scan of the claim loop: walk `ids` in order, append ids not in
`used` to `acc`, stop as soon as `maxCandidate` have been collected. -/
def scanCandidates (used : Int → Bool) : List Int → List Int → List Int
  | [], acc => acc
  | i :: rest, acc =>
    if used i then scanCandidates used rest acc
    else
      let acc' := acc ++ [i]
      if maxCandidate ≤ acc'.length then acc'
      else scanCandidates used rest acc'

/-- The candidate list built at the top of each `LOCKING` iteration. -/
def candidates (mn mx : Int) (used : Int → Bool) : List Int :=
  scanCandidates used (intRange mn mx) []

/-- Outcome of one `SetNX` call as reported by the store. -/
inductive SetnxRes where
  /-- Case `res.Err() != nil`: I/O error. -/
  | err : SetnxRes
  /-- Case `res.Val() = true`: the conditional create won. -/
  | won : SetnxRes
  /-- Case `res.Val() = false`: the key is already held. -/
  | lost : SetnxRes
deriving DecidableEq, Repr

/-- Outcome of the claim loop. -/
inductive LockOutcome where
  /-- Lock acquired: `r.id = id`, success signalled on the channel. -/
  | ok (id : Int) : LockOutcome
  /-- Failure `raise "no more available id"`. -/
  | exhausted : LockOutcome
  /-- Failure raising the `SetNX` error. -/
  | storeErr : LockOutcome
  /-- Artifact of the fuelled model only; never reached with enough fuel. -/
  | fuelOut : LockOutcome
deriving DecidableEq, Repr

/-- The `LOCKING` loop.  `draws a` models the `a`-th `r.rand.Intn` draw (any
value; it is reduced modulo the candidate count exactly as `Intn` bounds it);
`resp a key value ttlSec` models the outcome of the `a`-th `SetNX` call.  The
second component of the result counts the `SetNX` calls issued. -/
def lockLoop (mn mx : Int) (ns uuid : Str) (draws : Nat → Nat)
    (resp : Nat → Str → Str → Nat → SetnxRes) :
    Nat → (Int → Bool) → Nat → LockOutcome × Nat
  | 0, _, att => (.fuelOut, att)
  | fuel + 1, used, att =>
    let cand := candidates mn mx used
    if cand.isEmpty then (.exhausted, att)
    else
      let id := cand.getD (draws att % cand.length) 0
      match resp att (candidateLockKey ns id) uuid 60 with
      | .err => (.storeErr, att + 1)
      | .won => (.ok id, att + 1)
      | .lost => lockLoop mn mx ns uuid draws resp fuel (markUsed used id) (att + 1)

/-- Ids in `min..max` not currently marked used (the loop's true measure). -/
def freeIds (mn mx : Int) (used : Int → Bool) : List Int :=
  (intRange mn mx).filter (fun i => !used i)

/-! ## `subscribe` handshake and `Get` (`raus.go` lines 78-86, 88-188)

`subscribe` signals the handshake on `r.channel`: an error for every failure
path, `nil` after a won lock.  `subscribeModel` returns that handshake value
together with the id field after the claim loop. -/

/-- The handshake outcome of `subscribe` (discovery followed by the claim
loop), given the discovery payloads and the claim-loop oracles: `(e, id)`
where `e` is the first value sent on `r.channel` and `id` the value of
`r.id` at that point (`r.id` keeps its prior value on failure paths). -/
def subscribeModel (r : Raus) (msgs : List Str) (draws : Nat → Nat)
    (resp : Nat → Str → Str → Nat → SetnxRes) (fuel : Nat) :
    Option String × Int :=
  match discoverMsgs r.uuid msgs (fun _ => false) with
  | .dup => (some "duplicate uuid", r.id)
  | .done used =>
    match lockLoop r.min r.max r.nameSpace r.uuid draws resp fuel used 0 with
    | (.ok id, _) => (none, id)
    | (.exhausted, _) => (some "no more available id", r.id)
    | (.storeErr, _) => (some "redis error", r.id)
    | (.fuelOut, _) => (some "fuel exhausted (model artifact)", r.id)

/-- Method `Get` (`raus.go` lines 78-86): wait for the handshake; on error return
`(ErrorID, nil, err)`, on success return `(r.id, r.channel, nil)`.  The
middle component models whether the returned channel is non-`nil`. -/
def GetModel (r : Raus) (msgs : List Str) (draws : Nat → Nat)
    (resp : Nat → Str → Str → Nat → SetnxRes) (fuel : Nat) :
    Int × Bool × Option String :=
  match subscribeModel r msgs draws resp fuel with
  | (some e, _) => (ErrorID, false, some e)
  | (none, id) => (id, true, none)

/-! ## The duplicate watcher (`raus.go` lines 190-207, label `WATCHING`) -/

/-- Whether one received payload makes the watcher post
`"duplicate id detected"` and return.  Malformed payloads (and receive
errors, which carry no payload) are logged and skipped. -/
def watchMsg (uuid : Str) (myid : Int) (m : Str) : Bool :=
  match parsePayload m with
  | .error _ => false
  | .ok (xuuid, xid) => if xid = myid ∧ xuuid ≠ uuid then true else false

/-- The `WATCHING` loop over a sequence of received payloads: `true` iff the
watcher terminates (posting `"duplicate id detected"`) on some payload. -/
def watchLoop (uuid : Str) (myid : Int) : List Str → Bool
  | [] => false
  | m :: rest => if watchMsg uuid myid m then true else watchLoop uuid myid rest

/-! ## The renewal publisher (`raus.go` lines 226-261, label `TICKER`) -/

/-- A redis operation issued by the publisher. -/
inductive RedisOp where
  /-- Call `c.Publish(channel, payload)`. -/
  | publish (channel payload : Str) : RedisOp
  /-- Call `c.Set(key, value, ttlSec * time.Second)`. -/
  | set (key value : Str) (ttlSec : Nat) : RedisOp
  /-- Call `c.Del(key)`. -/
  | del (key : Str) : RedisOp
deriving DecidableEq, Repr

/-- One tick of the `TICKER` loop: the redis operations issued, and whether
the publisher returns after the tick.  `cancelled` is whether `ctx.Done()`
is ready at the `select`; `pubFail`/`setFail`/`delFail` are whether the
respective calls report errors (every failure is logged; a `Publish` failure
does `continue TICKER`, skipping the `Set` of that tick; a `Set` or `Del`
failure changes nothing further). -/
def publishTick (r : Raus) (cancelled pubFail setFail delFail : Bool) :
    List RedisOp × Bool :=
  if cancelled then
    ([.del r.lockKey], true)
  else
    let pub := RedisOp.publish r.pubSubChannel (newPayload r.uuid r.id)
    if pubFail then ([pub], false)
    else
      let _ := setFail
      let _ := delFail
      ([pub, .set r.lockKey r.uuid 60], false)

/-! ## The store (for the cross-session uniqueness claim)

An abstract model of the redis instance as seen through the operations the
package uses: a map from key to value with an absolute expiry instant.
`SETNX` writes only when the key is absent or expired; `SET` writes
unconditionally; `DEL` removes.  This is the "store honors conditional-create
and TTLs accurately" hypothesis of the spec, made into a semantics. -/

/-- Store state: each key holds at most one `(value, expiry)` pair. -/
structure StoreSt where
  val : Str → Option (Str × Nat)

/-- The empty store. -/
def store0 : StoreSt := ⟨fun _ => none⟩

/-- Write `k ↦ (v, exp)`. -/
def upsert (st : StoreSt) (k v : Str) (exp : Nat) : StoreSt :=
  ⟨fun k' => if k' = k then some (v, exp) else st.val k'⟩

/-- Remove `k`. -/
def removeKey (st : StoreSt) (k : Str) : StoreSt :=
  ⟨fun k' => if k' = k then none else st.val k'⟩

/-- The live value of `k` at instant `t` (an expired key reads as absent). -/
def getLive (st : StoreSt) (t : Nat) (k : Str) : Option Str :=
  match st.val k with
  | none => none
  | some (v, exp) => if t < exp then some v else none

/-- A timed store event, issued by some session. -/
inductive Ev where
  /-- Operation `SetNX k v ttl` at instant `t`. -/
  | setnx (t : Nat) (k v : Str) (ttl : Nat) : Ev
  /-- Operation `Set k v ttl` at instant `t` (the publisher's refresh). -/
  | setEv (t : Nat) (k v : Str) (ttl : Nat) : Ev
  /-- Operation `Del k` at instant `t`. -/
  | delEv (t : Nat) (k : Str) : Ev

/-- Effect of one event on the store. -/
def applyEv (st : StoreSt) : Ev → StoreSt
  | .setnx t k v ttl => if getLive st t k = none then upsert st k v (t + ttl) else st
  | .setEv t k v ttl => upsert st k v (t + ttl)
  | .delEv t k => removeKey st k

/-- Run a trace of events from a store state. -/
def runEvents (st : StoreSt) : List Ev → StoreSt
  | [] => st
  | e :: rest => runEvents (applyEv st e) rest

/-! ## Concrete values used to instantiate the theorems -/

/-- A concrete session value (as produced by `New` followed by a claim of
id 3). -/
def rEx : Raus :=
  { uuid := "u1".toList
    id := 3
    min := 1
    max := 5
    redisAddr := []
    nameSpace := "raus".toList
    pubSubChannel := "raus:broadcast".toList }

/-- A concrete store trace: two sessions conditionally create the lock keys
of ids 1 and 2 at instant 0 with the 60-second TTL. -/
def evsEx : List Ev :=
  [.setnx 0 (candidateLockKey "raus".toList 1) "a".toList 60,
   .setnx 0 (candidateLockKey "raus".toList 2) "b".toList 60]

/-- The session record produced by `New [] 0 2 []`. -/
def rEx9 : Raus :=
  { uuid := []
    id := 0
    min := 0
    max := 2
    redisAddr := []
    nameSpace := defaultNamespace
    pubSubChannel := defaultNamespace ++ pubSubChannelSuffix }

/-! ## Helper lemmas: decimal formatting and parsing -/

theorem digitChar_toNat {d : Nat} (h : d < 10) : (digitChar d).toNat = 48 + d := by
  interval_cases d <;> decide

theorem isDigitChar_digitChar {d : Nat} (h : d < 10) : isDigitChar (digitChar d) = true := by
  interval_cases d <;> decide

theorem isDigitChar_ne_plus {c : Char} (h : isDigitChar c = true) : c ≠ '+' := by
  intro he; subst he; exact absurd h (by decide)

theorem isDigitChar_ne_minus {c : Char} (h : isDigitChar c = true) : c ≠ '-' := by
  intro he; subst he; exact absurd h (by decide)

theorem isDigitChar_ne_colon {c : Char} (h : isDigitChar c = true) : c ≠ ':' := by
  intro he; subst he; exact absurd h (by decide)

theorem natDigitsF_ne_nil (fuel n : Nat) : natDigitsF fuel n ≠ [] := by
  cases fuel with
  | zero => simp [natDigitsF]
  | succ f =>
    by_cases h : n < 10 <;> simp [natDigitsF, h]

theorem natDigitsF_all_digit : ∀ fuel n, n ≤ fuel →
    (natDigitsF fuel n).all isDigitChar = true := by
  intro fuel
  induction fuel with
  | zero =>
    intro n hn
    have h0 : n = 0 := Nat.le_zero.mp hn
    subst h0
    simp [natDigitsF, isDigitChar_digitChar (by omega : (0 : Nat) < 10)]
  | succ f ih =>
    intro n hn
    by_cases h : n < 10
    · simp [natDigitsF, h, isDigitChar_digitChar h]
    · have hdiv : n / 10 ≤ f := by omega
      simp [natDigitsF, h, List.all_append,
        ih (n / 10) hdiv, isDigitChar_digitChar (Nat.mod_lt n (by omega))]

theorem digitsVal_append (l : Str) (c : Char) :
    digitsVal (l ++ [c]) = 10 * digitsVal l + (c.toNat - 48) := by
  simp [digitsVal, List.foldl_append]

theorem digitsVal_natDigitsF : ∀ fuel n, n ≤ fuel →
    digitsVal (natDigitsF fuel n) = n := by
  intro fuel
  induction fuel with
  | zero =>
    intro n hn
    have h0 : n = 0 := Nat.le_zero.mp hn
    subst h0
    simp [natDigitsF, digitsVal, digitChar_toNat (by omega : (0 : Nat) < 10)]
  | succ f ih =>
    intro n hn
    by_cases h : n < 10
    · simp [natDigitsF, h, digitsVal, digitChar_toNat h]
    · have hdiv : n / 10 ≤ f := by omega
      rw [natDigitsF, if_neg h, digitsVal_append, ih (n / 10) hdiv,
        digitChar_toNat (Nat.mod_lt n (by omega))]
      omega

theorem natDigits_all_digit (n : Nat) : (natDigits n).all isDigitChar = true :=
  natDigitsF_all_digit n n (Nat.le_refl n)

theorem digitsVal_natDigits (n : Nat) : digitsVal (natDigits n) = n :=
  digitsVal_natDigitsF n n (Nat.le_refl n)

theorem natDigits_ne_nil (n : Nat) : natDigits n ≠ [] :=
  natDigitsF_ne_nil n n

theorem colon_not_mem_natDigits (n : Nat) : ':' ∉ natDigits n := by
  intro hmem
  exact isDigitChar_ne_colon
    (List.all_eq_true.mp (natDigits_all_digit n) ':' hmem) rfl

theorem colon_not_mem_intDecimal (i : Int) : ':' ∉ intDecimal i := by
  unfold intDecimal
  by_cases h : i < 0
  · simp only [if_pos h, List.mem_cons]
    rintro (he | hmem)
    · exact absurd he (by decide)
    · exact colon_not_mem_natDigits _ hmem
  · simp only [if_neg h]
    exact colon_not_mem_natDigits _

/-- Function `Atoi` accepts a nonempty all-digit string at face value. -/
theorem Atoi_digits (l : Str) (hne : l ≠ []) (hd : l.all isDigitChar = true) :
    Atoi l = .ok (digitsVal l) := by
  obtain ⟨c, rest, rfl⟩ := List.exists_cons_of_ne_nil hne
  have hc : isDigitChar c = true := List.all_eq_true.mp hd c (by simp)
  rw [Atoi, if_neg (isDigitChar_ne_plus hc), if_neg (isDigitChar_ne_minus hc), if_pos hd]

/-- Round trip of the decimal formatter through `strconv.Atoi`. -/
theorem Atoi_intDecimal (i : Int) : Atoi (intDecimal i) = .ok i := by
  by_cases h : i < 0
  · rw [intDecimal, if_pos h, Atoi]
    rw [if_neg (by decide), if_pos rfl,
      if_pos ⟨natDigits_ne_nil _, natDigits_all_digit _⟩]
    rw [digitsVal_natDigits]
    congr 1
    omega
  · rw [intDecimal, if_neg h,
      Atoi_digits _ (natDigits_ne_nil _) (natDigits_all_digit _),
      digitsVal_natDigits]
    congr 1
    omega

theorem intDecimal_injective : Function.Injective intDecimal := by
  intro i j h
  have := Atoi_intDecimal i
  rw [h, Atoi_intDecimal j] at this
  exact (Except.ok.injEq _ _).mp this.symm

theorem candidateLockKey_inj (ns : Str) {i j : Int}
    (h : candidateLockKey ns i = candidateLockKey ns j) : i = j := by
  unfold candidateLockKey at h
  rw [List.append_assoc, List.append_assoc] at h
  exact intDecimal_injective
    (List.append_cancel_left (List.append_cancel_left h))

/-! ## Helper lemmas: `strings.Split` on `":"` -/

theorem splitOnColon_ne_nil (s : Str) : splitOnColon s ≠ [] := by
  cases s with
  | nil => simp [splitOnColon]
  | cons c rest =>
    rw [splitOnColon]
    by_cases h : c = ':'
    · simp [h]
    · simp only [if_neg h]
      cases splitOnColon rest <;> simp

theorem splitOnColon_no_colon (b : Str) (hb : ':' ∉ b) : splitOnColon b = [b] := by
  induction b with
  | nil => rfl
  | cons c rest ih =>
    have hc : c ≠ ':' := fun he => hb (by simp [he])
    have hrest : ':' ∉ rest := fun hm => hb (by simp [hm])
    rw [splitOnColon, if_neg hc, ih hrest]

theorem splitOnColon_append (a s : Str) (ha : ':' ∉ a) (h0 : Str) (t : List Str)
    (hs : splitOnColon s = h0 :: t) :
    splitOnColon (a ++ s) = (a ++ h0) :: t := by
  induction a with
  | nil => simpa using hs
  | cons c a' ih =>
    have hc : c ≠ ':' := fun he => ha (by simp [he])
    have ha' : ':' ∉ a' := fun hm => ha (by simp [hm])
    rw [List.cons_append, splitOnColon, if_neg hc, ih ha']
    simp

theorem splitOnColon_newPayload (nonce : Str) (i : Int) (hn : ':' ∉ nonce) :
    splitOnColon (newPayload nonce i) = [nonce, intDecimal i] := by
  have h1 : splitOnColon (':' :: intDecimal i) = [] :: [intDecimal i] := by
    rw [splitOnColon, if_pos rfl,
      splitOnColon_no_colon _ (colon_not_mem_intDecimal i)]
  rw [newPayload, List.append_assoc]
  simpa using splitOnColon_append nonce (':' :: intDecimal i) hn _ _ h1

/-- Parsing inverts `newPayload` whenever the uuid contains no colon. -/
theorem parsePayload_newPayload (nonce : Str) (i : Int) (hn : ':' ∉ nonce) :
    parsePayload (newPayload nonce i) = .ok (nonce, i) := by
  simp [parsePayload, splitOnColon_newPayload nonce i hn, Atoi_intDecimal]

/-! ## Helper lemmas: the candidate scan -/

theorem mem_intRange {mn mx i : Int} : i ∈ intRange mn mx ↔ mn ≤ i ∧ i ≤ mx := by
  rw [intRange, List.mem_map]
  constructor
  · rintro ⟨k, hk, rfl⟩
    rw [List.mem_range] at hk
    omega
  · rintro ⟨h1, h2⟩
    exact ⟨(i - mn).toNat, List.mem_range.mpr (by omega), by omega⟩

theorem length_intRange (mn mx : Int) :
    (intRange mn mx).length = (mx - mn + 1).toNat := by
  rw [intRange, List.length_map, List.length_range]

/-- The scan, started below the candidate cap, appends exactly the first
`maxCandidate - acc.length` unused ids of `ids`, in order. -/
theorem scanCandidates_eq (used : Int → Bool) :
    ∀ (ids : List Int) (acc : List Int), acc.length < maxCandidate →
      scanCandidates used ids acc =
        acc ++ (ids.filter (fun i => !used i)).take (maxCandidate - acc.length) := by
  intro ids
  induction ids with
  | nil => intro acc _; simp [scanCandidates]
  | cons i rest ih =>
    intro acc hacc
    rw [scanCandidates]
    by_cases hu : used i
    · rw [if_pos hu, ih acc hacc]
      simp [List.filter_cons, hu]
    · rw [if_neg hu]
      by_cases hlen : maxCandidate ≤ (acc ++ [i]).length
      · have h9 : acc.length + 1 = maxCandidate := by
          simp at hlen; omega
        rw [if_pos hlen]
        have : maxCandidate - acc.length = 1 := by omega
        simp [List.filter_cons, hu, this]
      · rw [if_neg hlen]
        have hlt : (acc ++ [i]).length < maxCandidate := by
          simp at hlen ⊢; omega
        rw [ih (acc ++ [i]) hlt]
        have hstep : maxCandidate - acc.length = (maxCandidate - (acc ++ [i]).length) + 1 := by
          simp; omega
        simp [List.filter_cons, hu, hstep, List.take_succ_cons]

/-- The candidate list is the first `maxCandidate` free ids in ascending
range order. -/
theorem candidates_eq (mn mx : Int) (used : Int → Bool) :
    candidates mn mx used = (freeIds mn mx used).take maxCandidate := by
  rw [candidates, scanCandidates_eq used (intRange mn mx) [] (by decide)]
  rfl

theorem mem_candidates {mn mx i : Int} {used : Int → Bool}
    (h : i ∈ candidates mn mx used) :
    (mn ≤ i ∧ i ≤ mx) ∧ used i = false := by
  rw [candidates_eq] at h
  have hf := List.mem_of_mem_take h
  have := List.mem_filter.mp hf
  exact ⟨mem_intRange.mp this.1, by simpa using this.2⟩

theorem candidates_eq_nil_iff (mn mx : Int) (used : Int → Bool) :
    candidates mn mx used = [] ↔ freeIds mn mx used = [] := by
  rw [candidates_eq, List.take_eq_nil_iff]
  simp [maxCandidate]

/-- Marking a free in-range id as used strictly shrinks the free set. -/
theorem length_freeIds_markUsed {mn mx i : Int} {used : Int → Bool}
    (hmem : i ∈ intRange mn mx) (hfree : used i = false) :
    (freeIds mn mx (markUsed used i)).length < (freeIds mn mx used).length := by
  have hpt : ∀ j ∈ intRange mn mx,
      (!markUsed used i j) = (decide (j ≠ i) && !used j) := by
    intro j _
    by_cases hj : j = i
    · subst hj; simp [markUsed]
    · simp [markUsed, hj]
  have hsplit : freeIds mn mx (markUsed used i)
      = (freeIds mn mx used).filter (fun j => decide (j ≠ i)) := by
    rw [freeIds, List.filter_congr hpt, freeIds, List.filter_filter]
  rw [hsplit]
  exact List.length_filter_lt_length_iff_exists.mpr
    ⟨i, List.mem_filter.mpr ⟨hmem, by simp [hfree]⟩, by simp⟩

/-- The free set is never larger than the whole range. -/
theorem length_freeIds_le (mn mx : Int) (used : Int → Bool) :
    (freeIds mn mx used).length ≤ (mx - mn + 1).toNat := by
  rw [← length_intRange]
  exact List.length_filter_le _ _

/-! ## Helper lemmas: the claim loop -/

/-- The id picked in a `LOCKING` iteration is a member of the candidate
list (`Intn` bounds the index by the list length). -/
theorem getD_mod_mem {l : List Int} (hne : l ≠ []) (k : Nat) :
    l.getD (k % l.length) 0 ∈ l := by
  have hlen : 0 < l.length := List.length_pos.mpr hne
  have hidx : k % l.length < l.length := Nat.mod_lt k hlen
  rw [List.getD_eq_getElem l 0 hidx]
  exact List.getElem_mem hidx

/-- The candidate list is nonempty iff some id in range is free. -/
theorem candidates_ne_nil_of_free {mn mx : Int} {used : Int → Bool}
    (h : 0 < (freeIds mn mx used).length) : candidates mn mx used ≠ [] := by
  intro hemp
  have := (candidates_eq_nil_iff mn mx used).mp hemp
  rw [this] at h
  simp at h

/-- A successful claim returns an id inside `[min, max]`. -/
theorem lockLoop_ok_range {mn mx : Int} {ns uuid : Str} {draws : Nat → Nat}
    {resp : Nat → Str → Str → Nat → SetnxRes} :
    ∀ {fuel : Nat} {used : Int → Bool} {att a : Nat} {id : Int},
      lockLoop mn mx ns uuid draws resp fuel used att = (.ok id, a) →
      mn ≤ id ∧ id ≤ mx := by
  intro fuel
  induction fuel with
  | zero =>
    intro used att a id h
    simp [lockLoop] at h
  | succ f ih =>
    intro used att a id h
    simp only [lockLoop] at h
    split at h
    · simp at h
    · rename_i hemp
      split at h
      · simp at h
      · rename_i heq
        have hid : (candidates mn mx used).getD
            (draws att % (candidates mn mx used).length) 0 = id := by
          simpa using congrArg Prod.fst h
        rw [← hid]
        exact (mem_candidates (getD_mod_mem (by simpa using hemp) (draws att))).1
      · exact ih h

/-- With fuel exceeding the number of free ids, the loop never runs out of
fuel. -/
theorem lockLoop_no_fuelOut {mn mx : Int} {ns uuid : Str} {draws : Nat → Nat}
    {resp : Nat → Str → Str → Nat → SetnxRes} :
    ∀ {fuel : Nat} {used : Int → Bool} {att : Nat},
      (freeIds mn mx used).length < fuel →
      (lockLoop mn mx ns uuid draws resp fuel used att).1 ≠ .fuelOut := by
  intro fuel
  induction fuel with
  | zero => intro used att h; omega
  | succ f ih =>
    intro used att hfuel
    simp only [lockLoop]
    split
    · simp
    · rename_i hemp
      have hne : candidates mn mx used ≠ [] := by simpa using hemp
      have hmem := getD_mod_mem hne (draws att)
      have hrange := (mem_candidates hmem).1
      have hfree := (mem_candidates hmem).2
      split
      · simp
      · simp
      · have hlt := length_freeIds_markUsed (mem_intRange.mpr hrange) hfree
        exact ih (by omega)

/-- The number of `SetNX` attempts issued from attempt counter `att` is
bounded by the number of currently free ids. -/
theorem lockLoop_attempts_le {mn mx : Int} {ns uuid : Str} {draws : Nat → Nat}
    {resp : Nat → Str → Str → Nat → SetnxRes} :
    ∀ {fuel : Nat} {used : Int → Bool} {att : Nat},
      (lockLoop mn mx ns uuid draws resp fuel used att).2
        ≤ att + (freeIds mn mx used).length := by
  intro fuel
  induction fuel with
  | zero => intro used att; simp [lockLoop]
  | succ f ih =>
    intro used att
    simp only [lockLoop]
    split
    · simp
    · rename_i hemp
      have hne : candidates mn mx used ≠ [] := by simpa using hemp
      have hmem := getD_mod_mem hne (draws att)
      have hrange := (mem_candidates hmem).1
      have hfree := (mem_candidates hmem).2
      have hpos : 0 < (freeIds mn mx used).length := by
        rcases Nat.eq_zero_or_pos (freeIds mn mx used).length with hz | hp
        · exact absurd ((candidates_eq_nil_iff mn mx used).mpr
            (List.length_eq_zero.mp hz)) hne
        · exact hp
      split
      · simpa using by omega
      · simpa using by omega
      · have hlt := length_freeIds_markUsed (mem_intRange.mpr hrange) hfree
        calc (lockLoop mn mx ns uuid draws resp f
                (markUsed used ((candidates mn mx used).getD
                  (draws att % (candidates mn mx used).length) 0)) (att + 1)).2
            ≤ (att + 1) + (freeIds mn mx (markUsed used
                ((candidates mn mx used).getD
                  (draws att % (candidates mn mx used).length) 0))).length := ih
          _ ≤ att + (freeIds mn mx used).length := by omega

/-- If the store never reports an I/O error, the loop ends with a claimed id
or with exhaustion. -/
theorem lockLoop_outcome {mn mx : Int} {ns uuid : Str} {draws : Nat → Nat}
    {resp : Nat → Str → Str → Nat → SetnxRes}
    (hnoerr : ∀ a k v t, resp a k v t ≠ .err) :
    ∀ {fuel : Nat} {used : Int → Bool} {att : Nat},
      (freeIds mn mx used).length < fuel →
      (∃ id a, lockLoop mn mx ns uuid draws resp fuel used att = (.ok id, a))
        ∨ (∃ a, lockLoop mn mx ns uuid draws resp fuel used att = (.exhausted, a)) := by
  intro fuel
  induction fuel with
  | zero => intro used att h; omega
  | succ f ih =>
    intro used att hfuel
    simp only [lockLoop]
    split
    · right; exact ⟨att, rfl⟩
    · rename_i hemp
      have hne : candidates mn mx used ≠ [] := by simpa using hemp
      have hmem := getD_mod_mem hne (draws att)
      have hrange := (mem_candidates hmem).1
      have hfree := (mem_candidates hmem).2
      split
      · rename_i heq; exact absurd heq (hnoerr _ _ _ _)
      · left
        exact ⟨(candidates mn mx used).getD
          (draws att % (candidates mn mx used).length) 0, att + 1, rfl⟩
      · have hlt := length_freeIds_markUsed (mem_intRange.mpr hrange) hfree
        exact ih (by omega)

/-! ## Helper lemmas: discovery -/

/-- If any received discovery message is well-formed and carries our own
uuid, processing the messages hits the `"duplicate uuid"` branch. -/
theorem discoverMsgs_dup (uuid : Str) :
    ∀ (msgs : List Str) (used : Int → Bool),
      (∃ m ∈ msgs, ∃ xid, parsePayload m = .ok (uuid, xid)) →
      discoverMsgs uuid msgs used = .dup := by
  intro msgs
  induction msgs with
  | nil =>
    rintro used ⟨m, hm, _⟩
    simp at hm
  | cons m rest ih =>
    rintro used ⟨m', hm', xid, hp⟩
    rw [discoverMsgs]
    rcases List.mem_cons.mp hm' with rfl | hmem
    · rw [hp]
      simp
    · cases hpm : parsePayload m with
      | error e => exact ih used ⟨m', hmem, xid, hp⟩
      | ok pr =>
        obtain ⟨xu, xi⟩ := pr
        by_cases he : xu = uuid
        · simp [he]
        · simp only [he, if_neg he]
          exact ih _ ⟨m', hmem, xid, hp⟩

/-! ## Helper lemmas: discovery timing -/

/-- Once the elapsed time reaches the window, the loop exits immediately. -/
theorem discEnd_stuck (t : Nat) (durs : List Nat) (e : Nat) (he : ¬e < t) :
    discEnd t durs e = e := by
  cases durs with
  | nil => rfl
  | cons d rest => rw [discEnd, if_neg he]

/-- The `LISTING` loop ends strictly before `2 * timeout` elapsed: the loop
guard admits a last receive just before the window closes, and that receive
can block for a further full `timeout`. -/
theorem discEnd_lt (t : Nat) :
    ∀ (durs : List Nat) (e : Nat), e < t → discEnd t durs e < t + t := by
  intro durs
  induction durs with
  | nil =>
    intro e he
    rw [discEnd]
    omega
  | cons d rest ih =>
    intro e he
    rw [discEnd, if_pos he]
    by_cases hd : d ≥ t
    · rw [if_pos hd]
      omega
    · rw [if_neg hd]
      by_cases he' : e + d < t
      · exact ih (e + d) he'
      · rw [discEnd_stuck t rest (e + d) he']
        omega

/-- Every receive the loop issues starts inside the window and is passed the
fixed full-window deadline. -/
theorem discReceiveCalls_fixed (t : Nat) :
    ∀ (durs : List Nat) (e : Nat),
      ∀ p ∈ discReceiveCalls t durs e, p.2 = t ∧ p.1 < t := by
  intro durs
  induction durs with
  | nil =>
    intro e p hp
    simp [discReceiveCalls] at hp
  | cons d rest ih =>
    intro e p hp
    rw [discReceiveCalls] at hp
    by_cases he : e < t
    · rw [if_pos he] at hp
      rcases List.mem_cons.mp hp with rfl | hmem
      · exact ⟨rfl, he⟩
      · by_cases hd : d ≥ t
        · rw [if_pos hd] at hmem
          simp at hmem
        · rw [if_neg hd] at hmem
          exact ih (e + d) p hmem
    · rw [if_neg he] at hp
      simp at hp

/-! ## Helper lemmas: the subscribe handshake -/

/-- A `nil` handshake can only come from a won lock in the claim loop. -/
theorem subscribeModel_none {r : Raus} {msgs : List Str} {draws : Nat → Nat}
    {resp : Nat → Str → Str → Nat → SetnxRes} {fuel : Nat} {id : Int}
    (h : subscribeModel r msgs draws resp fuel = (none, id)) :
    ∃ (used : Int → Bool) (a : Nat),
      lockLoop r.min r.max r.nameSpace r.uuid draws resp fuel used 0
        = (.ok id, a) := by
  rw [subscribeModel] at h
  cases hd : discoverMsgs r.uuid msgs (fun _ => false) with
  | dup => rw [hd] at h; simp at h
  | done used =>
    simp only [hd] at h
    rcases hl : lockLoop r.min r.max r.nameSpace r.uuid draws resp fuel used 0
      with ⟨out, a⟩
    cases out with
    | ok i =>
      simp only [hl] at h
      simp at h
      exact ⟨used, a, by rw [hl, h]⟩
    | exhausted => simp only [hl] at h; simp at h
    | storeErr => simp only [hl] at h; simp at h
    | fuelOut => simp only [hl] at h; simp at h

/-! # The specification claims -/

/-- Claim C8. For every nonce string containing no `':'` and every integer id,
parsing the produced wire payload `"<nonce>:<id>"` recovers exactly
`(nonce, id)`; and a payload is rejected as malformed exactly when splitting
on `':'` does not yield two parts with a decimally-parsable second part. -/
theorem claim8_payload_roundtrip (nonce : Str) (i : Int) (p : Str) :
    (':' ∉ nonce → parsePayload (newPayload nonce i) = .ok (nonce, i)) ∧
    ((parsePayload p).isOk = false ↔
      ¬∃ (a b : Str), splitOnColon p = [a, b] ∧ (Atoi b).isOk = true) := by
  constructor
  · intro hn
    exact parsePayload_newPayload nonce i hn
  · rcases hsp : splitOnColon p with _ | ⟨a, _ | ⟨b, _ | ⟨c, t⟩⟩⟩
    · simp [parsePayload, hsp, Except.isOk, Except.toBool]
    · simp [parsePayload, hsp, Except.isOk, Except.toBool]
    · cases hA : Atoi b with
      | ok v => simp [parsePayload, hsp, hA, Except.isOk, Except.toBool]
      | error e => simp [parsePayload, hsp, hA, Except.isOk, Except.toBool]
    · simp [parsePayload, hsp, Except.isOk, Except.toBool]

/-- Claim C9. Construction (`New`) fails if and only if `min < 0` or
`min ≥ max` (in particular `min = max` fails); otherwise it produces a
session whose namespace defaults to `"raus"` and whose broadcast channel is
`"raus:broadcast"`. -/
theorem claim9_construct (addr : Str) (mn mx : Int) (u : Str) :
    ((∃ e, New addr mn mx u = .error e) ↔ mn < 0 ∨ mn ≥ mx) ∧
    (∀ r : Raus, New addr mn mx u = .ok r →
      r.nameSpace = "raus".toList ∧
      r.pubSubChannel = "raus:broadcast".toList ∧
      r.min = mn ∧ r.max = mx ∧ r.uuid = u ∧ r.redisAddr = addr ∧ r.id = 0) ∧
    (∃ e, New addr mn mn u = .error e) := by
  refine ⟨?_, ?_, ?_⟩
  · rw [New]
    by_cases h1 : mn < 0
    · simp [h1]
    · by_cases h2 : mn ≥ mx
      · simp [h1, h2]
      · simp [h1, h2]
  · intro r hr
    rw [New] at hr
    by_cases h1 : mn < 0
    · rw [if_pos h1] at hr; simp at hr
    · rw [if_neg h1] at hr
      by_cases h2 : mn ≥ mx
      · rw [if_pos h2] at hr; simp at hr
      · rw [if_neg h2] at hr
        simp only [Except.ok.injEq] at hr
        subst hr
        exact ⟨rfl, rfl, rfl, rfl, rfl, rfl, rfl⟩
  · rw [New]
    by_cases h1 : mn < 0
    · simp [h1]
    · simp [h1, le_refl]

/-- Claim C10. Whenever acquire (`Get`) fails — the handshake delivers an
error — it returns the sentinel id `-1` (`ErrorID`) together with a nil
channel; on success it returns the claimed id together with the (non-nil)
channel. -/
theorem claim10_get_returns (r : Raus) (msgs : List Str) (draws : Nat → Nat)
    (resp : Nat → Str → Str → Nat → SetnxRes) (fuel : Nat) :
    (∀ e : String, (subscribeModel r msgs draws resp fuel).1 = some e →
      GetModel r msgs draws resp fuel = (ErrorID, false, some e)) ∧
    ((subscribeModel r msgs draws resp fuel).1 = none →
      GetModel r msgs draws resp fuel
        = ((subscribeModel r msgs draws resp fuel).2, true, none)) := by
  rcases hs : subscribeModel r msgs draws resp fuel with ⟨oe, sid⟩
  constructor
  · intro e he
    simp at he
    subst he
    simp [GetModel, hs]
  · intro he
    simp at he
    subst he
    simp [GetModel, hs]

/-- Claim C5. The duplicate watcher posts `"duplicate id detected"` and
terminates if and only if it receives a well-formed payload whose parsed id
equals the owned id and whose parsed uuid differs from the session's; a
malformed payload is logged and skipped and never terminates the watcher. -/
theorem claim5_watcher (uuid : Str) (myid : Int) :
    (∀ m : Str, watchMsg uuid myid m = true ↔
      ∃ (xuuid : Str) (xid : Int),
        parsePayload m = .ok (xuuid, xid) ∧ xid = myid ∧ xuuid ≠ uuid) ∧
    (∀ (m : Str) (e : String),
      parsePayload m = .error e → watchMsg uuid myid m = false) ∧
    (∀ msgs : List Str,
      watchLoop uuid myid msgs = true ↔ ∃ m ∈ msgs, watchMsg uuid myid m = true) := by
  refine ⟨?_, ?_, ?_⟩
  · intro m
    rw [watchMsg]
    cases hp : parsePayload m with
    | error e => simp
    | ok pr =>
      obtain ⟨xu, xi⟩ := pr
      by_cases hx : xi = myid ∧ xu ≠ uuid
      · simp only [if_pos hx]
        simp only [true_iff]
        exact ⟨xu, xi, rfl, hx.1, hx.2⟩
      · simp only [if_neg hx]
        simp only [Bool.false_eq_true, false_iff]
        rintro ⟨xuuid, xid, heq, h1, h2⟩
        simp only [Except.ok.injEq, Prod.mk.injEq] at heq
        exact hx ⟨heq.2 ▸ h1, heq.1 ▸ h2⟩
  · intro m e hp
    rw [watchMsg, hp]
  · intro msgs
    induction msgs with
    | nil => simp [watchLoop]
    | cons m rest ih =>
      rw [watchLoop]
      by_cases hm : watchMsg uuid myid m = true
      · rw [if_pos hm]
        simp only [List.mem_cons, true_iff]
        exact ⟨m, Or.inl rfl, hm⟩
      · rw [if_neg hm, ih]
        simp only [List.mem_cons]
        constructor
        · rintro ⟨m', hm', hw⟩
          exact ⟨m', Or.inr hm', hw⟩
        · rintro ⟨m', hm' | hm', hw⟩
          · exact absurd (hm' ▸ hw) hm
          · exact ⟨m', hm', hw⟩

/-- Claim C2. Each iteration of the claim loop scans `min..max` ascending,
collecting up to 10 candidates not in `used`; an empty candidate set fails
with Exhausted; otherwise one candidate is picked (by an `Intn` draw over
the candidate count) and a conditional create is issued for its lock key
with the session uuid and 60 s TTL; a lost create marks the candidate used
and repeats; so, when the store reports no I/O error, the loop terminates
with a claimed id or Exhausted after at most `max - min + 1` attempts. -/
theorem claim2_claim_loop (mn mx : Int) (ns uuid : Str) (draws : Nat → Nat)
    (resp : Nat → Str → Str → Nat → SetnxRes)
    (hnoerr : ∀ a k v t, resp a k v t ≠ .err) :
    (∀ used : Int → Bool,
      candidates mn mx used
        = ((intRange mn mx).filter (fun i => !used i)).take 10) ∧
    (∀ (fuel att : Nat) (used : Int → Bool), candidates mn mx used = [] →
      lockLoop mn mx ns uuid draws resp (fuel + 1) used att = (.exhausted, att)) ∧
    (∀ (fuel att : Nat) (used : Int → Bool), candidates mn mx used ≠ [] →
      (candidates mn mx used).getD
          (draws att % (candidates mn mx used).length) 0
        ∈ candidates mn mx used ∧
      (resp att (candidateLockKey ns ((candidates mn mx used).getD
            (draws att % (candidates mn mx used).length) 0)) uuid 60 = .won →
        lockLoop mn mx ns uuid draws resp (fuel + 1) used att
          = (.ok ((candidates mn mx used).getD
              (draws att % (candidates mn mx used).length) 0), att + 1)) ∧
      (resp att (candidateLockKey ns ((candidates mn mx used).getD
            (draws att % (candidates mn mx used).length) 0)) uuid 60 = .lost →
        lockLoop mn mx ns uuid draws resp (fuel + 1) used att
          = lockLoop mn mx ns uuid draws resp fuel
              (markUsed used ((candidates mn mx used).getD
                (draws att % (candidates mn mx used).length) 0)) (att + 1))) ∧
    (∀ used : Int → Bool,
      ((∃ id a, lockLoop mn mx ns uuid draws resp
          ((freeIds mn mx used).length + 1) used 0 = (.ok id, a))
        ∨ (∃ a, lockLoop mn mx ns uuid draws resp
            ((freeIds mn mx used).length + 1) used 0 = (.exhausted, a))) ∧
      (lockLoop mn mx ns uuid draws resp
          ((freeIds mn mx used).length + 1) used 0).2 ≤ (mx - mn + 1).toNat) := by
  refine ⟨?_, ?_, ?_, ?_⟩
  · intro used
    exact candidates_eq mn mx used
  · intro fuel att used hemp
    simp only [lockLoop]
    rw [if_pos (by simp [hemp])]
  · intro fuel att used hne
    refine ⟨getD_mod_mem hne (draws att), ?_, ?_⟩
    · intro hwon
      simp only [lockLoop]
      rw [if_neg (by simpa using hne), hwon]
    · intro hlost
      simp only [lockLoop]
      rw [if_neg (by simpa using hne), hlost]
  · intro used
    refine ⟨lockLoop_outcome hnoerr (by omega), ?_⟩
    calc (lockLoop mn mx ns uuid draws resp
            ((freeIds mn mx used).length + 1) used 0).2
        ≤ 0 + (freeIds mn mx used).length := lockLoop_attempts_le
      _ ≤ (mx - mn + 1).toNat := by
          have := length_freeIds_le mn mx used
          omega

/-- Claim C3. For every successful acquire (`Get` returning without error),
the returned id satisfies `min ≤ id ≤ max`, for every range, discovery
message sequence, randomness and store behavior. -/
theorem claim3_success_id_in_range (r : Raus) (msgs : List Str)
    (draws : Nat → Nat) (resp : Nat → Str → Str → Nat → SetnxRes)
    (fuel : Nat) (id : Int) (ch : Bool)
    (h : GetModel r msgs draws resp fuel = (id, ch, none)) :
    r.min ≤ id ∧ id ≤ r.max := by
  rw [GetModel] at h
  rcases hs : subscribeModel r msgs draws resp fuel with ⟨oe, sid⟩
  rw [hs] at h
  cases oe with
  | some e => simp at h
  | none =>
    have hsid : sid = id := by
      have := congrArg (fun p => p.1) h
      simpa using this
    obtain ⟨used, a, hl⟩ := subscribeModel_none (by rw [hs, hsid])
    exact lockLoop_ok_range hl

/-- Claim C7. If any received well-formed discovery payload carries the
session's own uuid, acquire terminates with the `"duplicate uuid"` error:
it neither records the id nor proceeds to the claim loop, for every position
of the message in the discovery window. -/
theorem claim7_duplicate_nonce (r : Raus) (msgs : List Str)
    (draws : Nat → Nat) (resp : Nat → Str → Str → Nat → SetnxRes) (fuel : Nat)
    (h : ∃ m ∈ msgs, ∃ xid : Int, parsePayload m = .ok (r.uuid, xid)) :
    discoverMsgs r.uuid msgs (fun _ => false) = .dup ∧
    GetModel r msgs draws resp fuel = (ErrorID, false, some "duplicate uuid") := by
  have hd := discoverMsgs_dup r.uuid msgs (fun _ => false) h
  exact ⟨hd, by simp [GetModel, subscribeModel, hd]⟩

/-- Claim C1. Two sessions that hold lock keys at the same instant under
different uuids hold distinct ids (a store honoring conditional-create and
TTLs keeps at most one live value per key at any instant, and distinct ids
have distinct lock keys). -/
theorem claim1_overlap_distinct_ids (ρ : List Ev) (ns : Str) (t : Nat)
    (i j : Int) (n1 n2 : Str)
    (h1 : getLive (runEvents store0 ρ) t (candidateLockKey ns i) = some n1)
    (h2 : getLive (runEvents store0 ρ) t (candidateLockKey ns j) = some n2)
    (hnn : n1 ≠ n2) :
    i ≠ j ∧
    (∀ (k n1' n2' : Str),
      getLive (runEvents store0 ρ) t k = some n1' →
      getLive (runEvents store0 ρ) t k = some n2' → n1' = n2') ∧
    (∀ i' j' : Int, candidateLockKey ns i' = candidateLockKey ns j' → i' = j') := by
  refine ⟨?_, ?_, ?_⟩
  · rintro rfl
    rw [h1] at h2
    exact hnn (Option.some.injEq .. ▸ h2)
  · intro k n1' n2' ha hb
    rw [ha] at hb
    exact Option.some.injEq .. ▸ hb
  · intro i' j' hk
    exact candidateLockKey_inj ns hk

/-- Counterexample to claim C4. On a non-cancelled tick where the publish
fails, the code does `continue TICKER`, so the TTL refresh (`Set`) is *not*
issued on that tick — contradicting the claim that a failure of either step
does not prevent the other. -/
theorem claim4_counterexample :
    (publishTick rEx false true false false).2 = false ∧
    RedisOp.publish rEx.pubSubChannel (newPayload rEx.uuid rEx.id)
      ∈ (publishTick rEx false true false false).1 ∧
    RedisOp.set rEx.lockKey rEx.uuid 60
      ∉ (publishTick rEx false true false false).1 := by
  decide

/-- Claim C4, amended. On a cancelled tick the publisher deletes the owned
lock key (best-effort) and terminates.  On a non-cancelled tick it publishes
`"<nonce>:<id>"` on the broadcast channel and, only if the publish
succeeded, refreshes the lock key with an unconditional 60 s-TTL write of
the nonce; a publish failure skips the refresh for that tick; no failure
terminates the publisher. -/
theorem claim4_publisher_tick (r : Raus) (setFail delFail : Bool) :
    (∀ pubFail,
      publishTick r true pubFail setFail delFail = ([.del r.lockKey], true)) ∧
    (publishTick r false false setFail delFail
      = ([.publish r.pubSubChannel (newPayload r.uuid r.id),
          .set r.lockKey r.uuid 60], false)) ∧
    (publishTick r false true setFail delFail
      = ([.publish r.pubSubChannel (newPayload r.uuid r.id)], false)) := by
  refine ⟨fun pubFail => rfl, rfl, rfl⟩

/-- Counterexample to claim C6. The second receive of a discovery run that got
a first message after 2000 ms is issued at elapsed 2000 ms with deadline
3000 ms — not the remaining 1000 ms; and with a second message arriving
after 5000 ms the window ends at 5000 ms > 3000 ms. -/
theorem claim6_counterexample :
    (discReceiveCalls 3000 [2000, 100] 0).getD 1 (0, 0) = (2000, 3000) ∧
    (2000 : Nat) + (3000 - 2000) ≠ 2000 + 3000 ∧
    discEnd 3000 [2000, 5000] 0 = 5000 ∧ (5000 : Nat) > 3000 := by
  decide

/-- Claim C6, amended. Every receive of the discovery window is issued with
the *fixed* full 3-second deadline (not the remaining window), and only
while less than 3 s has elapsed; consequently the window as a whole lasts
less than 6 s (not 3 s) of wall-clock time. -/
theorem claim6_discovery_window (durs : List Nat) :
    (∀ p ∈ discReceiveCalls timeoutMs durs 0,
      p.2 = timeoutMs ∧ p.1 < timeoutMs) ∧
    discEnd timeoutMs durs 0 < 2 * timeoutMs := by
  refine ⟨discReceiveCalls_fixed timeoutMs durs 0, ?_⟩
  have := discEnd_lt timeoutMs durs 0 (by decide)
  omega

/-! # Witnesses: the claim theorems applied at concrete inputs -/

/-- Witness for C1: the trace `evsEx` produces two concurrently live lock
keys under distinct uuids, and their ids 1 and 2 are distinct. -/
theorem claim1_witness : (1 : Int) ≠ 2 :=
  (claim1_overlap_distinct_ids evsEx "raus".toList 30 1 2 "a".toList "b".toList
    (by decide) (by decide) (by decide)).1

/-- Witness for C2: on range `[0, 2]` with an always-losing store, the loop
ends in Exhausted after at most `2 - 0 + 1 = 3` attempts. -/
theorem claim2_witness :
    ((∃ id a, lockLoop 0 2 "raus".toList "u1".toList (fun _ => 0)
        (fun _ _ _ _ => SetnxRes.lost)
        ((freeIds 0 2 (fun _ => false)).length + 1) (fun _ => false) 0
        = (.ok id, a))
      ∨ (∃ a, lockLoop 0 2 "raus".toList "u1".toList (fun _ => 0)
          (fun _ _ _ _ => SetnxRes.lost)
          ((freeIds 0 2 (fun _ => false)).length + 1) (fun _ => false) 0
          = (.exhausted, a)))
    ∧ (lockLoop 0 2 "raus".toList "u1".toList (fun _ => 0)
        (fun _ _ _ _ => SetnxRes.lost)
        ((freeIds 0 2 (fun _ => false)).length + 1) (fun _ => false) 0).2
      ≤ ((2 : Int) - 0 + 1).toNat :=
  (claim2_claim_loop 0 2 "raus".toList "u1".toList (fun _ => 0)
    (fun _ _ _ _ => SetnxRes.lost)
    (by intro a k v t h; exact SetnxRes.noConfusion h)).2.2.2
    (fun _ => false)

/-- Witness for C3: a concrete successful acquire returns id 1, which lies
in the session's range `[1, 5]`. -/
theorem claim3_witness : rEx.min ≤ 1 ∧ (1 : Int) ≤ rEx.max :=
  claim3_success_id_in_range rEx [] (fun _ => 0)
    (fun _ _ _ _ => SetnxRes.won) 1 1 true (by decide)

/-- Witness for C5: a malformed payload does not terminate the watcher. -/
theorem claim5_witness : watchMsg "u1".toList 3 "bad".toList = false :=
  (claim5_watcher "u1".toList 3).2.1 "bad".toList "unexpected data bad"
    (by decide)

/-- Witness for C6: the first receive of a concrete discovery run is issued
at elapsed 0 with the fixed 3000 ms deadline. -/
theorem claim6_witness :
    ((0 : Nat), (3000 : Nat)).2 = timeoutMs ∧
    ((0 : Nat), (3000 : Nat)).1 < timeoutMs :=
  (claim6_discovery_window [2000, 5000]).1 (0, 3000) (by decide)

/-- Witness for C7: a discovery message carrying the session's own uuid
makes acquire fail with `"duplicate uuid"`. -/
theorem claim7_witness :
    discoverMsgs rEx.uuid ["u1:4".toList] (fun _ => false) = .dup ∧
    GetModel rEx ["u1:4".toList] (fun _ => 0) (fun _ _ _ _ => SetnxRes.won) 1
      = (ErrorID, false, some "duplicate uuid") :=
  claim7_duplicate_nonce rEx ["u1:4".toList] (fun _ => 0)
    (fun _ _ _ _ => SetnxRes.won) 1
    ⟨"u1:4".toList, by decide, 4, by decide⟩

/-- Witness for C8: the payload built from nonce `"abc"` and id 42 parses
back to exactly that pair. -/
theorem claim8_witness :
    parsePayload (newPayload "abc".toList 42) = .ok ("abc".toList, 42) :=
  (claim8_payload_roundtrip "abc".toList 42 []).1 (by decide)

/-- Witness for C9: `New [] 0 2 []` succeeds and the produced session
carries the default namespace and broadcast channel. -/
theorem claim9_witness :
    rEx9.nameSpace = "raus".toList ∧
    rEx9.pubSubChannel = "raus:broadcast".toList ∧
    rEx9.min = 0 ∧ rEx9.max = 2 ∧ rEx9.uuid = [] ∧ rEx9.redisAddr = []
      ∧ rEx9.id = 0 :=
  (claim9_construct [] 0 2 []).2.1 rEx9 (by decide)

/-- Witness for C10: a failed handshake makes `Get` return
`(ErrorID, nil, err)`. -/
theorem claim10_witness :
    GetModel rEx ["u1:4".toList] (fun _ => 1) (fun _ _ _ _ => SetnxRes.won) 1
      = (ErrorID, false, some "duplicate uuid") :=
  (claim10_get_returns rEx ["u1:4".toList] (fun _ => 1)
    (fun _ _ _ _ => SetnxRes.won) 1).1 "duplicate uuid" (by decide)

end Raus
